import Mathlib

/-!
Shallow embedding of the `queuectl` background job queue (src/queuectl/db.py and
src/queuectl/worker.py).

The SQLite table `jobs` is modelled as a list of `Job` records in insertion
(rowid) order.  The `id` column is a PRIMARY KEY, so any store produced by the
real program has pairwise-distinct ids; theorems that need this take an
`IdsNodup` hypothesis.  `created_at` / `updated_at` timestamps (SQL
`datetime('now')` strings, which compare chronologically) are modelled as natural
numbers; each mutating operation receives the current time `now` as an explicit
argument.  Statements executed against the database become pure list
transformations; a Python exception escaping before `conn.commit()` (file-not-found
on enqueue, a CHECK-constraint violation on UPDATE) is modelled as `Except.error`,
with the store unchanged (sqlite rolls back uncommitted work when the connection
closes).
-/

/-- The five job states of the `state` column
(`CHECK(state IN ('pending','processing','completed','failed','dead'))`). -/
inductive JState where
  | pending
  | processing
  | completed
  | failed
  | dead
deriving DecidableEq, Repr

/-- SQL text of a `JState`, as stored in the `state` column. -/
def JState.name : JState → String
  | .pending => "pending"
  | .processing => "processing"
  | .completed => "completed"
  | .failed => "failed"
  | .dead => "dead"

/-- Parsing of a state string: `some st` when the string is one of the five
state strings accepted by the table's CHECK constraint, else `none`. -/
def parseState (s : String) : Option JState :=
  if s = "pending" then some .pending
  else if s = "processing" then some .processing
  else if s = "completed" then some .completed
  else if s = "failed" then some .failed
  else if s = "dead" then some .dead
  else none

/-- One row of the `jobs` table (db.py `init_db`). -/
structure Job where
  id : String
  command : String
  state : JState
  attempts : Nat
  max_retries : Nat
  created_at : Nat
  updated_at : Nat
deriving DecidableEq, Repr

/-- The `jobs` table, rows in rowid (insertion) order. -/
abbrev Store := List Job

/-- The PRIMARY KEY invariant: all ids in the table are distinct. -/
def IdsNodup (s : Store) : Prop := (s.map Job.id).Nodup

instance : DecidablePred IdsNodup := fun s =>
  inferInstanceAs (Decidable ((s.map Job.id).Nodup))

/-- SQL `UPDATE jobs SET ... WHERE id = jobId`: apply `f` to every row whose
id matches, leave the rest alone. -/
def updateById (jobId : String) (f : Job → Job) (s : Store) : Store :=
  s.map (fun k => if k.id = jobId then f k else k)

/-- SQL `SELECT ... WHERE id = jobId`: the (first) row with the given id. -/
def findById (s : Store) (jobId : String) : Option Job :=
  s.find? (fun k => k.id = jobId)

/-- The `state` column of the row with the given id, if any. -/
def stateOf (s : Store) (jobId : String) : Option JState :=
  (findById s jobId).map Job.state

/-- The `attempts` column of the row with the given id, if any. -/
def attemptsOf (s : Store) (jobId : String) : Option Nat :=
  (findById s jobId).map Job.attempts

/-- Python `os.path.basename`: the final path component. -/
def basename (p : String) : String := (p.splitOn "/").getLastD p

/-- db.py `enqueue_job`, file-based branch: the command inferred from the file
extension after the file is copied to `data/jobs/<basename>`
(`.py` → `python`, `.sh` → `bash`, otherwise `cat`). -/
def inferCommand (src : String) : String :=
  if src.endsWith ".py" then "python " ++ ("data/jobs/" ++ basename src)
  else if src.endsWith ".sh" then "bash " ++ ("data/jobs/" ++ basename src)
  else "cat " ++ ("data/jobs/" ++ basename src)

/-- A job description passed to `enqueue_job`: either a direct `command`, or a
`file_path` from which the command is inferred. -/
structure JobReq where
  id : String
  command : String
  file_path : Option String
deriving DecidableEq, Repr

/-- db.py `enqueue_job`.  `fs` is the set of existing filesystem paths
(`os.path.exists`); `suffix` is the value of `uuid.uuid4().hex[:6]` drawn when
an id collision is detected.  A missing `file_path` raises `FileNotFoundError`
before any INSERT; if the id (after collision suffixing) is still taken the
INSERT violates the PRIMARY KEY.  On success returns the id used and the new
table: the row is inserted with the schema defaults `state='pending'`,
`attempts=0`, `max_retries=3`, `created_at=updated_at=now`. -/
def enqueue_job (fs : List String) (suffix : String) (now : Nat) (job : JobReq)
    (s : Store) : Except String (String × Store) :=
  match (match job.file_path with
         | some src =>
             if src ∈ fs then Except.ok (inferCommand src)
             else Except.error ("Job file not found: " ++ src)
         | none => Except.ok job.command : Except String String) with
  | .error e => .error e
  | .ok cmd =>
      let theId := if s.any (fun k => k.id = job.id)
                   then job.id ++ "_" ++ suffix else job.id
      if s.any (fun k => k.id = theId) then
        .error "UNIQUE constraint failed: jobs.id"
      else
        .ok (theId,
             s ++ [{ id := theId, command := cmd, state := .pending,
                     attempts := 0, max_retries := 3,
                     created_at := now, updated_at := now }])

/-- db.py `claim_job`: `SELECT id FROM jobs WHERE state='pending' ORDER BY
created_at LIMIT 1`, then `UPDATE ... SET state='processing',
updated_at=datetime('now') WHERE id=? AND state='pending'`, then re-SELECT the
row and return it.  `List.argmin` picks the first row of minimal `created_at`,
matching the SQL scan order.  Sequentially the guarded UPDATE always hits the
selected row (the `rowcount != 1` branch only fires under concurrency), and the
re-SELECT under the PRIMARY KEY returns that row updated. -/
def claim_job (now : Nat) (s : Store) : Option Job × Store :=
  match (s.filter (fun j => j.state = JState.pending)).argmin Job.created_at with
  | none => (none, s)
  | some j =>
      (some { j with state := .processing, updated_at := now },
       updateById j.id (fun k => { k with state := .processing, updated_at := now }) s)

/-- db.py `update_job_state`.  For `new_state = "failed"`: increment `attempts`
(and `updated_at`), re-read the row, and set the state to `'dead'` when
`attempts >= max_retries`, else `'failed'`; if the row does not exist return
`None` (the connection closes without commit, so nothing changes).  For any
other `new_state`: `UPDATE jobs SET state=?, updated_at=datetime('now') WHERE
id=?` and return `new_state`; the table's CHECK constraint raises (rolling the
transaction back) when the UPDATE actually rewrites a row with a string outside
the five states, and matches zero rows silently when the id is absent. -/
def update_job_state (now : Nat) (jobId newState : String) (s : Store) :
    Except String (Option String × Store) :=
  if newState = "failed" then
    let s1 := updateById jobId
      (fun k => { k with attempts := k.attempts + 1, updated_at := now }) s
    match findById s1 jobId with
    | none => .ok (none, s)
    | some row =>
        if row.max_retries ≤ row.attempts then
          .ok (some "dead",
               updateById jobId (fun k => { k with state := .dead, updated_at := now }) s1)
        else
          .ok (some "failed",
               updateById jobId (fun k => { k with state := .failed, updated_at := now }) s1)
  else
    match parseState newState with
    | some st =>
        .ok (some newState,
             updateById jobId (fun k => { k with state := st, updated_at := now }) s)
    | none =>
        if s.any (fun k => k.id = jobId) then
          .error "CHECK constraint failed: state"
        else .ok (some newState, s)

/-- db.py `move_to_dlq`: `update_job_state(job_id, "dead")`. -/
def move_to_dlq (now : Nat) (jobId : String) (s : Store) :
    Except String (Option String × Store) :=
  update_job_state now jobId "dead" s

/-- db.py `retry_job_from_dlq`: `UPDATE jobs SET state='pending', attempts=0,
updated_at=datetime('now') WHERE id=? AND state='dead'` — rows matching both
conditions are reset, every other row is untouched. -/
def retry_job_from_dlq (now : Nat) (jobId : String) (s : Store) : Store :=
  updateById jobId
    (fun k => if k.state = JState.dead
              then { k with state := .pending, attempts := 0, updated_at := now }
              else k) s

/-- db.py `delete_job`: `DELETE FROM jobs WHERE id=?`. -/
def delete_job (jobId : String) (s : Store) : Store :=
  s.filter (fun j => !(j.id = jobId : Bool))

/-- db.py `clear_all_jobs`: `DELETE FROM jobs`. -/
def clear_all_jobs (_s : Store) : Store := []

/-- The five states in the order iterated by db.py `get_job_summary`. -/
def allStates : List JState := [.pending, .processing, .completed, .failed, .dead]

/-- Python `dict` access on an association list: the value at the first
matching key. -/
def lookupKey (k : String) : List (String × Nat) → Option Nat
  | [] => none
  | p :: d => if p.1 = k then some p.2 else lookupKey k d

/-- Python `dict.setdefault(k, 0)`: add `(k, 0)` unless the key is present. -/
def setdefault (d : List (String × Nat)) (k : String) : List (String × Nat) :=
  if d.any (fun p => p.1 = k) then d else d ++ [(k, 0)]

/-- The distinct states occurring in the table, in first-occurrence order:
the groups of `SELECT state, COUNT(*) FROM jobs GROUP BY state`. -/
def statesPresent (s : Store) : List JState := (s.map Job.state).dedup

/-- db.py `get_job_summary`: the GROUP BY counts as a dict, then
`setdefault(state, 0)` for each of the five states. -/
def get_job_summary (s : Store) : List (String × Nat) :=
  ((allStates.map JState.name).foldl setdefault
    ((statesPresent s).map
      (fun st => (st.name, (s.filter (fun j => j.state = st)).length))))

/-- worker.py `worker_loop` retry decision (lines 100–103): with
`attempts = job["attempts"] + 1` (the claimed snapshot's count plus this
attempt) the job is retried iff `attempts < max_retries`. -/
def worker_should_retry (job : Job) : Bool :=
  job.attempts + 1 < job.max_retries

/-- worker.py `worker_loop` backoff (line 104): `delay = backoff_base **
attempts` where `attempts = job["attempts"] + 1`. -/
def worker_backoff_delay (backoffBase : Nat) (job : Job) : Nat :=
  backoffBase ^ (job.attempts + 1)

/-- A call against the job store, with the data it depends on. -/
inductive StoreOp where
  | enqueue (fs : List String) (suffix : String) (req : JobReq)
  | claim
  | update (jobId newState : String)
  | retryDLQ (jobId : String)
  | deleteJob (jobId : String)
  | clearAll
deriving DecidableEq, Repr

/-- The table after one store call (return values dropped; a raised exception
leaves the table unchanged). -/
def stepOp (now : Nat) (op : StoreOp) (s : Store) : Store :=
  match op with
  | .enqueue fs suffix req =>
      match enqueue_job fs suffix now req s with
      | .ok r => r.2
      | .error _ => s
  | .claim => (claim_job now s).2
  | .update jobId newState =>
      match update_job_state now jobId newState s with
      | .ok r => r.2
      | .error _ => s
  | .retryDLQ jobId => retry_job_from_dlq now jobId s
  | .deleteJob jobId => delete_job jobId s
  | .clearAll => clear_all_jobs s

/-- Run a sequence of timestamped store calls from the empty table. -/
def runTrace (tr : List (Nat × StoreOp)) : Store :=
  tr.foldl (fun s p => stepOp p.1 p.2 s) []

/-- The transition edges the spec's lattice lists:
`pending→processing`, `processing→completed`, `processing→failed`,
`failed→pending`, `failed→dead`, `dead→pending`. -/
def specEdges : List (JState × JState) :=
  [(.pending, .processing), (.processing, .completed), (.processing, .failed),
   (.failed, .pending), (.failed, .dead), (.dead, .pending)]

/-- The edges the code actually produces under the worker's calling discipline:
the spec's lattice with `failed→dead` replaced by `processing→dead` (a failure
that exhausts retries moves the row from `processing` straight to `dead` inside
`update_job_state`). -/
def codeEdges : List (JState × JState) :=
  [(.pending, .processing), (.processing, .completed), (.processing, .failed),
   (.processing, .dead), (.failed, .pending), (.dead, .pending)]

/-- The ways `update_job_state` is invoked by worker.py and cli.py:
`completed` and `failed` only on a job the caller just claimed (state
`processing`); `pending` only on a job whose failure was just recorded (state
`failed`); `dead` (via `move_to_dlq`) only on a job the store already reported
dead.  Other target states are never passed. -/
def disciplined (s : Store) : StoreOp → Prop
  | .update jobId newState =>
      (newState = "completed" ∨ newState = "failed" → stateOf s jobId = some .processing) ∧
      (newState = "pending" → stateOf s jobId = some .failed) ∧
      (newState = "dead" → stateOf s jobId = some .dead) ∧
      (newState = "completed" ∨ newState = "failed" ∨
       newState = "pending" ∨ newState = "dead")
  | _ => True

/-! ### Basic lemmas about the row combinators -/

theorem updateById_findById (jobId tid : String) (f : Job → Job)
    (hf : ∀ k, (f k).id = k.id) (s : Store) :
    findById (updateById jobId f s) tid
      = (findById s tid).map (fun j => if j.id = jobId then f j else j) := by
  induction s with
  | nil => rfl
  | cons a t ih =>
      have hga : ((if a.id = jobId then f a else a) : Job).id = a.id := by
        by_cases h : a.id = jobId <;> simp [h, hf]
      by_cases h2 : a.id = tid
      · subst h2
        simp [updateById, findById, List.find?_cons, hga]
      · have hd : (decide (a.id = tid)) = false := decide_eq_false h2
        simp only [updateById, findById, List.map_cons, List.find?_cons] at *
        rw [hga, hd]
        exact ih

theorem updateById_map_id (jobId : String) (f : Job → Job)
    (hf : ∀ k, (f k).id = k.id) (s : Store) :
    (updateById jobId f s).map Job.id = s.map Job.id := by
  simp only [updateById, List.map_map]
  apply List.map_congr_left
  intro a _
  by_cases h : a.id = jobId <;> simp [Function.comp, h, hf]

theorem updateById_comp (jobId : String) (f g : Job → Job)
    (hf : ∀ k, (f k).id = k.id) (s : Store) :
    updateById jobId g (updateById jobId f s)
      = updateById jobId (fun k => g (f k)) s := by
  simp only [updateById, List.map_map]
  apply List.map_congr_left
  intro a _
  by_cases h : a.id = jobId <;> simp [Function.comp, h, hf]

theorem updateById_of_forall_ne (jobId : String) (f : Job → Job) (s : Store)
    (h : ∀ j ∈ s, ¬ j.id = jobId) :
    updateById jobId f s = s := by
  induction s with
  | nil => rfl
  | cons a t ih =>
      have ha : ¬ a.id = jobId := h a (List.mem_cons_self a t)
      simp only [updateById, List.map_cons, if_neg ha] at *
      exact congrArg (a :: ·) (ih (fun j hj => h j (List.mem_cons_of_mem a hj)))

theorem findById_of_mem (s : Store) (j : Job) (hs : IdsNodup s) (hj : j ∈ s) :
    findById s j.id = some j := by
  induction s with
  | nil => cases hj
  | cons a t ih =>
      rcases List.mem_cons.mp hj with h | h
      · subst h; simp [findById, List.find?_cons]
      · have hmem : j.id ∈ t.map Job.id := List.mem_map_of_mem Job.id h
        have hs' := (List.nodup_cons.mp hs)
        have ha : ¬ a.id = j.id := fun e => hs'.1 (e ▸ hmem)
        simp only [findById, List.find?_cons] at *
        simp [ha, ih hs'.2 h]

theorem findById_of_forall_ne (s : Store) (jobId : String)
    (h : ∀ j ∈ s, ¬ j.id = jobId) : findById s jobId = none := by
  induction s with
  | nil => rfl
  | cons a t ih =>
      have ha := h a (List.mem_cons_self a t)
      simp only [findById, List.find?_cons] at *
      simp [ha, ih (fun j hj => h j (List.mem_cons_of_mem a hj))]

theorem id_inj (s : Store) (hs : IdsNodup s) {j k : Job}
    (hj : j ∈ s) (hk : k ∈ s) (h : j.id = k.id) : j = k := by
  have h1 := findById_of_mem s j hs hj
  have h2 := findById_of_mem s k hs hk
  rw [h, h2] at h1
  exact (Option.some_inj.mp h1).symm

/-- Characterisation of the `new_state = "failed"` branch of `update_job_state`
on a present row: attempts are incremented and the state becomes `dead` exactly
when the incremented count reaches `max_retries`, else `failed`. -/
theorem update_failed_eq (now : Nat) (s : Store) (j : Job)
    (hs : IdsNodup s) (hj : j ∈ s) :
    update_job_state now j.id "failed" s =
      .ok (some (if j.max_retries ≤ j.attempts + 1 then "dead" else "failed"),
           updateById j.id
             (fun k => { k with
                 attempts := k.attempts + 1,
                 state := if j.max_retries ≤ j.attempts + 1
                          then JState.dead else JState.failed,
                 updated_at := now }) s) := by
  have hf : ∀ k : Job,
      (({ k with attempts := k.attempts + 1, updated_at := now } : Job)).id = k.id :=
    fun k => rfl
  have h1 : findById
      (updateById j.id
        (fun k => { k with attempts := k.attempts + 1, updated_at := now }) s) j.id
      = some { j with attempts := j.attempts + 1, updated_at := now } := by
    rw [updateById_findById _ _ _ hf, findById_of_mem s j hs hj]
    simp
  unfold update_job_state
  rw [if_pos rfl]
  simp only [h1]
  by_cases hc : j.max_retries ≤ j.attempts + 1
  · simp only [if_pos hc]
    rw [updateById_comp _ _ _ hf]
  · simp only [if_neg hc]
    rw [updateById_comp _ _ _ hf]

/-- C2: for a job present in the store, `update_job_state(id, "failed")` first
increments the job's `attempts`, then compares the incremented count with
`max_retries`: the job's resulting state is `dead` when
`attempts + 1 >= max_retries` and `failed` otherwise, the resulting state is
returned to the caller, and a dead outcome occurs exactly when the incremented
count reaches `max_retries` — never earlier. -/
theorem update_failed_spec (now : Nat) (s : Store) (j : Job)
    (hs : IdsNodup s) (hj : j ∈ s) :
    update_job_state now j.id "failed" s =
      .ok (some (if j.max_retries ≤ j.attempts + 1 then "dead" else "failed"),
           updateById j.id
             (fun k => { k with
                 attempts := k.attempts + 1,
                 state := if j.max_retries ≤ j.attempts + 1
                          then JState.dead else JState.failed,
                 updated_at := now }) s)
    ∧ ((∃ s2, update_job_state now j.id "failed" s = .ok (some "dead", s2))
        ↔ j.max_retries ≤ j.attempts + 1) := by
  refine ⟨update_failed_eq now s j hs hj, ?_, ?_⟩
  · rintro ⟨s2, h2⟩
    rw [update_failed_eq now s j hs hj] at h2
    by_contra hc
    simp [if_neg hc] at h2
  · intro hc
    exact ⟨_, by rw [update_failed_eq now s j hs hj, if_pos hc]⟩

def witJobC2 : Job :=
  { id := "a", command := "c", state := .processing, attempts := 2,
    max_retries := 3, created_at := 0, updated_at := 0 }

theorem update_failed_spec_witness :
    update_job_state 11 witJobC2.id "failed" [witJobC2] =
      .ok (some (if witJobC2.max_retries ≤ witJobC2.attempts + 1
                 then "dead" else "failed"),
           updateById witJobC2.id
             (fun k => { k with
                 attempts := k.attempts + 1,
                 state := if witJobC2.max_retries ≤ witJobC2.attempts + 1
                          then JState.dead else JState.failed,
                 updated_at := 11 }) [witJobC2])
    ∧ ((∃ s2, update_job_state 11 witJobC2.id "failed" [witJobC2]
          = .ok (some "dead", s2))
        ↔ witJobC2.max_retries ≤ witJobC2.attempts + 1) :=
  update_failed_spec 11 [witJobC2] witJobC2 (by decide)
    (List.mem_singleton.mpr rfl)

/-- C5: for a claimed job snapshot with `attempts = a` and `max_retries = m`
that is unchanged between the claim and the failure transition, the worker
loop's retry decision (`a + 1 < m`, computed from the snapshot) coincides with
the store's report: the decision holds iff `update_job_state(id, "failed")`
returns `failed`, and fails iff it returns `dead`. -/
theorem worker_decision_refines_store (now : Nat) (s : Store) (j : Job)
    (hs : IdsNodup s) (hj : j ∈ s) :
    ∃ res s2, update_job_state now j.id "failed" s = .ok (res, s2)
      ∧ (worker_should_retry j = true ↔ res = some "failed")
      ∧ (worker_should_retry j = false ↔ res = some "dead") := by
  refine ⟨_, _, update_failed_eq now s j hs hj, ?_, ?_⟩
  · unfold worker_should_retry
    by_cases hc : j.max_retries ≤ j.attempts + 1
    · simp [if_pos hc, Nat.not_lt.mpr hc]
    · simp [if_neg hc, Nat.lt_of_not_le hc]
  · unfold worker_should_retry
    by_cases hc : j.max_retries ≤ j.attempts + 1
    · simp [if_pos hc, Nat.not_lt.mpr hc]
    · simp [if_neg hc, Nat.lt_of_not_le hc]

def witJobC5 : Job :=
  { id := "b", command := "c", state := .processing, attempts := 0,
    max_retries := 3, created_at := 0, updated_at := 0 }

theorem worker_decision_refines_store_witness :
    ∃ res s2, update_job_state 4 witJobC5.id "failed" [witJobC5] = .ok (res, s2)
      ∧ (worker_should_retry witJobC5 = true ↔ res = some "failed")
      ∧ (worker_should_retry witJobC5 = false ↔ res = some "dead") :=
  worker_decision_refines_store 4 [witJobC5] witJobC5 (by decide)
    (List.mem_singleton.mpr rfl)

/-- C10: when no row has the given id, `update_job_state(id, "failed")` returns
`None` with the store unchanged, while `update_job_state(id, s)` for any other
target state returns `s` as if the transition had succeeded, also leaving the
store unchanged. -/
theorem update_missing_spec (now : Nat) (jobId : String) (s : Store)
    (h : ∀ j ∈ s, ¬ j.id = jobId) :
    update_job_state now jobId "failed" s = .ok (none, s)
    ∧ ∀ ns, ns ≠ "failed" → update_job_state now jobId ns s = .ok (some ns, s) := by
  constructor
  · have hf : ∀ k : Job,
        (({ k with attempts := k.attempts + 1, updated_at := now } : Job)).id = k.id :=
      fun k => rfl
    have h1 : findById
        (updateById jobId
          (fun k => { k with attempts := k.attempts + 1, updated_at := now }) s) jobId
        = none := by
      rw [updateById_findById _ _ _ hf, findById_of_forall_ne s jobId h]
      rfl
    unfold update_job_state
    rw [if_pos rfl]
    simp only [h1]
  · intro ns hns
    unfold update_job_state
    rw [if_neg hns]
    cases hp : parseState ns with
    | some st =>
        simp only [updateById_of_forall_ne _ _ _ h]
    | none =>
        have hany : s.any (fun k => (k.id = jobId : Bool)) = false := by
          rw [List.any_eq_false]
          intro k hk
          simp [h k hk]
        simp only [hany, Bool.false_eq_true, if_false]

theorem update_missing_spec_witness :
    update_job_state 3 "zz" "failed" [witJobC2] = .ok (none, [witJobC2])
    ∧ ∀ ns, ns ≠ "failed" →
        update_job_state 3 "zz" ns [witJobC2] = .ok (some ns, [witJobC2]) :=
  update_missing_spec 3 "zz" [witJobC2] (by decide)

/-- C4: `retry_job_from_dlq(id)` on a job whose state is `dead` resets that
job's state to `pending` and its attempts to `0` (touching no other row); on a
job whose state is not `dead`, or on an id with no row, it changes nothing. -/
theorem retry_from_dlq_spec (now : Nat) (s : Store) (jobId : String) :
    ((∀ j ∈ s, j.id = jobId → j.state ≠ JState.dead) →
        retry_job_from_dlq now jobId s = s)
    ∧ (∀ j ∈ s, IdsNodup s → j.id = jobId → j.state = JState.dead →
        retry_job_from_dlq now jobId s
          = updateById jobId
              (fun k => { k with
                  state := .pending, attempts := 0, updated_at := now }) s
        ∧ findById (retry_job_from_dlq now jobId s) jobId
            = some { j with
                state := .pending, attempts := 0, updated_at := now }) := by
  constructor
  · intro h
    unfold retry_job_from_dlq updateById
    have he : ∀ k ∈ s,
        (if k.id = jobId
         then (if k.state = JState.dead
               then { k with state := .pending, attempts := 0, updated_at := now }
               else k)
         else k) = k := by
      intro k hk
      by_cases h1 : k.id = jobId
      · rw [if_pos h1, if_neg (h k hk h1)]
      · rw [if_neg h1]
    rw [List.map_congr_left he]
    exact List.map_id s
  · intro j hj hs hid hdead
    have hfp : ∀ k : Job,
        ((if k.state = JState.dead
          then { k with state := .pending, attempts := 0, updated_at := now }
          else k) : Job).id = k.id := by
      intro k
      by_cases h1 : k.state = JState.dead <;> simp [h1]
    constructor
    · unfold retry_job_from_dlq updateById
      apply List.map_congr_left
      intro k hk
      by_cases h1 : k.id = jobId
      · have hkj : k = j := id_inj s hs hk hj (h1.trans hid.symm)
        subst hkj
        simp only [if_pos h1, if_pos hdead]
      · simp only [if_neg h1]
    · unfold retry_job_from_dlq
      rw [updateById_findById _ _ _ hfp]
      rw [← hid, findById_of_mem s j hs hj]
      simp [hid, hdead]

def witJobC4a : Job :=
  { id := "a", command := "c", state := .dead, attempts := 3,
    max_retries := 3, created_at := 0, updated_at := 0 }

def witJobC4b : Job :=
  { id := "b", command := "c", state := .failed, attempts := 1,
    max_retries := 3, created_at := 1, updated_at := 1 }

theorem retry_from_dlq_spec_witness :
    ((∀ j ∈ [witJobC4a, witJobC4b], j.id = "b" → j.state ≠ JState.dead) →
        retry_job_from_dlq 9 "b" [witJobC4a, witJobC4b] = [witJobC4a, witJobC4b])
    ∧ (∀ j ∈ [witJobC4a, witJobC4b], IdsNodup [witJobC4a, witJobC4b] →
        j.id = "b" → j.state = JState.dead →
        retry_job_from_dlq 9 "b" [witJobC4a, witJobC4b]
          = updateById "b"
              (fun k => { k with
                  state := .pending, attempts := 0, updated_at := 9 }) [witJobC4a, witJobC4b]
        ∧ findById (retry_job_from_dlq 9 "b" [witJobC4a, witJobC4b]) "b"
            = some { j with
                state := .pending, attempts := 0, updated_at := 9 }) :=
  retry_from_dlq_spec 9 [witJobC4a, witJobC4b] "b"

/-- C1: `claim_job` returns a pending job with the smallest `created_at`,
having changed exactly that job's state to `processing` (refreshing its
`updated_at`) and nothing else; if no pending job exists it returns `none` and
the store is unchanged. -/
theorem claim_spec (now : Nat) (s : Store) (hs : IdsNodup s) :
    ((∀ j ∈ s, j.state ≠ JState.pending) → claim_job now s = (none, s))
    ∧ (∀ p ∈ s, p.state = JState.pending →
        ∃ b ∈ s, b.state = JState.pending
          ∧ (∀ k ∈ s, k.state = JState.pending → b.created_at ≤ k.created_at)
          ∧ claim_job now s
              = (some { b with state := .processing, updated_at := now },
                 updateById b.id
                   (fun k => { k with state := .processing, updated_at := now }) s)
          ∧ ∀ k ∈ s, ¬ k.id = b.id → k ∈ (claim_job now s).2) := by
  constructor
  · intro h
    have hnil : s.filter (fun j => (j.state = JState.pending : Bool)) = [] := by
      rw [List.filter_eq_nil_iff]
      intro a ha
      simp [h a ha]
    unfold claim_job
    rw [hnil]
    rfl
  · intro p hp hpend
    have hpf : p ∈ s.filter (fun j => (j.state = JState.pending : Bool)) :=
      List.mem_filter.mpr ⟨hp, by simp [hpend]⟩
    cases hb : (s.filter (fun j => (j.state = JState.pending : Bool))).argmin
        Job.created_at with
    | none =>
        rw [List.argmin_eq_none] at hb
        rw [hb] at hpf
        cases hpf
    | some b =>
        have hbmem : b ∈ s.filter (fun j => (j.state = JState.pending : Bool)) :=
          List.argmin_mem (Option.mem_def.mpr hb)
        have hbs : b ∈ s := (List.mem_filter.mp hbmem).1
        have hbpend : b.state = JState.pending := by
          have := (List.mem_filter.mp hbmem).2
          simpa using this
        refine ⟨b, hbs, hbpend, ?_, ?_, ?_⟩
        · intro k hk hkpend
          exact List.le_of_mem_argmin
            (List.mem_filter.mpr ⟨hk, by simp [hkpend]⟩) (Option.mem_def.mpr hb)
        · unfold claim_job
          rw [hb]
        · intro k hk hkb
          unfold claim_job
          rw [hb]
          exact List.mem_map.mpr ⟨k, hk, by rw [if_neg hkb]⟩

def witJobC1a : Job :=
  { id := "a", command := "c", state := .pending, attempts := 0,
    max_retries := 3, created_at := 5, updated_at := 5 }

def witJobC1b : Job :=
  { id := "b", command := "c", state := .pending, attempts := 0,
    max_retries := 3, created_at := 3, updated_at := 3 }

theorem claim_spec_witness :
    ∃ b ∈ [witJobC1a, witJobC1b], b.state = JState.pending
      ∧ (∀ k ∈ [witJobC1a, witJobC1b], k.state = JState.pending →
          b.created_at ≤ k.created_at)
      ∧ claim_job 10 [witJobC1a, witJobC1b]
          = (some { b with state := .processing, updated_at := 10 },
             updateById b.id
               (fun k => { k with state := .processing, updated_at := 10 })
               [witJobC1a, witJobC1b])
      ∧ ∀ k ∈ [witJobC1a, witJobC1b], ¬ k.id = b.id →
          k ∈ (claim_job 10 [witJobC1a, witJobC1b]).2 :=
  (claim_spec 10 [witJobC1a, witJobC1b] (by decide)).2 witJobC1b
    (by simp) rfl

def witJobC6a : Job :=
  { id := "t", command := "c", state := .processing, attempts := 0,
    max_retries := 5, created_at := 0, updated_at := 0 }

def witJobC6b : Job :=
  { id := "t", command := "c", state := .processing, attempts := 1,
    max_retries := 5, created_at := 0, updated_at := 0 }

def witJobC6c : Job :=
  { id := "t", command := "c", state := .processing, attempts := 2,
    max_retries := 5, created_at := 0, updated_at := 0 }

/-- C6: the backoff delay before a retriable failed job returns to pending is
`backoff_base` raised to the attempt's post-increment count
(`claimed attempts + 1`); for `backoff_base = 2` the delays for post-increment
counts 1, 2, 3 (claimed snapshots 0, 1, 2) are 2, 4, 8. -/
theorem backoff_delay_spec :
    (∀ (base : Nat) (j : Job), worker_backoff_delay base j = base ^ (j.attempts + 1))
    ∧ worker_backoff_delay 2 witJobC6a = 2
    ∧ worker_backoff_delay 2 witJobC6b = 4
    ∧ worker_backoff_delay 2 witJobC6c = 8 :=
  ⟨fun _ _ => rfl, by decide, by decide, by decide⟩

/-- C7: `enqueue_job` inserts the job in `pending` state with `attempts = 0`,
appending it to the table; when the supplied id is already present the row is
stored under the supplied id extended with the random suffix and the existing
rows are untouched; when a referenced source file does not exist the call fails
with a file-not-found error and no row is inserted. -/
theorem enqueue_spec (fs : List String) (suffix : String) (now : Nat)
    (req : JobReq) (s : Store) :
    (∀ src, req.file_path = some src → src ∉ fs →
        enqueue_job fs suffix now req s = .error ("Job file not found: " ++ src))
    ∧ ((∀ src, req.file_path = some src → src ∈ fs) →
       (∀ j ∈ s, ¬ j.id = req.id) →
        ∃ cmd, enqueue_job fs suffix now req s
          = .ok (req.id,
                 s ++ [{ id := req.id, command := cmd, state := .pending,
                         attempts := 0, max_retries := 3,
                         created_at := now, updated_at := now }]))
    ∧ ((∀ src, req.file_path = some src → src ∈ fs) →
       (∃ j ∈ s, j.id = req.id) →
       (∀ j ∈ s, ¬ j.id = req.id ++ "_" ++ suffix) →
        ∃ cmd, enqueue_job fs suffix now req s
          = .ok (req.id ++ "_" ++ suffix,
                 s ++ [{ id := req.id ++ "_" ++ suffix, command := cmd,
                         state := .pending, attempts := 0, max_retries := 3,
                         created_at := now, updated_at := now }])) := by
  refine ⟨?_, ?_, ?_⟩
  · intro src hsrc hnot
    unfold enqueue_job
    rw [hsrc]
    simp [hnot]
  · intro hfile hno
    have hany : s.any (fun k => (k.id = req.id : Bool)) = false := by
      rw [List.any_eq_false]; intro k hk; simp [hno k hk]
    cases hfp : req.file_path with
    | some src =>
        refine ⟨inferCommand src, ?_⟩
        unfold enqueue_job
        rw [hfp]
        simp [hfile src hfp, hany]
    | none =>
        refine ⟨req.command, ?_⟩
        unfold enqueue_job
        rw [hfp]
        simp [hany]
  · intro hfile hyes hno
    have hany : s.any (fun k => (k.id = req.id : Bool)) = true := by
      rw [List.any_eq_true]
      obtain ⟨j, hj, hji⟩ := hyes
      exact ⟨j, hj, by simp [hji]⟩
    have hany2 : s.any (fun k => (k.id = req.id ++ "_" ++ suffix : Bool)) = false := by
      rw [List.any_eq_false]; intro k hk; simp [hno k hk]
    cases hfp : req.file_path with
    | some src =>
        refine ⟨inferCommand src, ?_⟩
        unfold enqueue_job
        rw [hfp]
        simp [hfile src hfp, hany, hany2]
    | none =>
        refine ⟨req.command, ?_⟩
        unfold enqueue_job
        rw [hfp]
        simp [hany, hany2]

theorem enqueue_spec_witness :
    enqueue_job [] "abc123" 7 { id := "n", command := "", file_path := some "g.py" }
        [witJobC2] = .error ("Job file not found: " ++ "g.py")
    ∧ (∃ cmd, enqueue_job ["f.py"] "abc123" 7
          { id := "n", command := "", file_path := some "f.py" } [witJobC2]
        = .ok ("n",
               [witJobC2] ++ [{ id := "n", command := cmd, state := .pending,
                                attempts := 0, max_retries := 3,
                                created_at := 7, updated_at := 7 }]))
    ∧ (∃ cmd, enqueue_job [] "abc123" 7
          { id := "a", command := "x", file_path := none } [witJobC2]
        = .ok ("a" ++ "_" ++ "abc123",
               [witJobC2] ++ [{ id := "a" ++ "_" ++ "abc123", command := cmd,
                                state := .pending, attempts := 0, max_retries := 3,
                                created_at := 7, updated_at := 7 }])) :=
  ⟨(enqueue_spec [] "abc123" 7 { id := "n", command := "", file_path := some "g.py" }
      [witJobC2]).1 "g.py" rfl (by decide),
   (enqueue_spec ["f.py"] "abc123" 7 { id := "n", command := "", file_path := some "f.py" }
      [witJobC2]).2.1
      (by intro src h; cases h; exact List.mem_singleton.mpr rfl)
      (by decide),
   (enqueue_spec [] "abc123" 7 { id := "a", command := "x", file_path := none }
      [witJobC2]).2.2
      (by intro src h; cases h)
      ⟨witJobC2, List.mem_singleton.mpr rfl, rfl⟩
      (by decide)⟩

theorem findById_mem (s : Store) (jobId : String) (j : Job)
    (h : findById s jobId = some j) : j ∈ s ∧ j.id = jobId := by
  unfold findById at h
  refine ⟨List.mem_of_find?_eq_some h, ?_⟩
  have := List.find?_some h
  simpa using this

theorem findById_append (s t : Store) (jobId : String) :
    findById (s ++ t) jobId = (findById s jobId).or (findById t jobId) := by
  unfold findById
  exact List.find?_append

theorem findById_filter_of_imp (q : Job → Bool) (s : Store) (jobId : String)
    (h : ∀ x : Job, x.id = jobId → q x = true) :
    findById (s.filter q) jobId = findById s jobId := by
  induction s with
  | nil => rfl
  | cons x t ih =>
      by_cases hq : q x = true
      · by_cases hp : x.id = jobId
        · simp [findById, List.filter_cons, hq, List.find?_cons, hp]
        · simp only [findById, List.filter_cons, hq, if_true, List.find?_cons] at *
          simp [hp, ih]
      · have hp : ¬ x.id = jobId := fun hp => hq (h x hp)
        simp only [findById, List.filter_cons, List.find?_cons] at *
        simp [hq, hp, ih]

theorem enqueue_ok_shape (fs : List String) (suffix : String) (now : Nat)
    (req : JobReq) (s : Store) (i : String) (s2 : Store)
    (h : enqueue_job fs suffix now req s = .ok (i, s2)) :
    ∃ cmd, s2 = s ++ [{ id := i, command := cmd, state := .pending,
                        attempts := 0, max_retries := 3,
                        created_at := now, updated_at := now }] := by
  unfold enqueue_job at h
  cases hm : (match req.file_path with
      | some src => if src ∈ fs then Except.ok (inferCommand src)
                    else Except.error ("Job file not found: " ++ src)
      | none => (Except.ok req.command : Except String String)) with
  | error e =>
      rw [hm] at h
      dsimp only at h
      cases h
  | ok cmd =>
      rw [hm] at h
      dsimp only at h
      by_cases h1 : s.any (fun k => (k.id = req.id : Bool)) = true
      · rw [if_pos h1] at h
        by_cases h2 : s.any (fun k => (k.id = req.id ++ "_" ++ suffix : Bool)) = true
        · rw [if_pos h2] at h
          cases h
        · rw [if_neg h2] at h
          injection h with h3
          injection h3 with h4 h5
          subst h4
          exact ⟨_, h5.symm⟩
      · rw [if_neg h1, if_neg h1] at h
        injection h with h3
        injection h3 with h4 h5
        subst h4
        exact ⟨_, h5.symm⟩

/-- Exhaustive description of `update_job_state` results. -/
theorem update_job_state_cases (now : Nat) (jobId ns : String) (s : Store) :
    (ns = "failed" ∧ findById s jobId = none
      ∧ update_job_state now jobId ns s = .ok (none, s))
    ∨ (∃ j, ns = "failed" ∧ findById s jobId = some j
      ∧ update_job_state now jobId ns s
          = .ok (some (if j.max_retries ≤ j.attempts + 1 then "dead" else "failed"),
                 updateById jobId
                   (fun k => { k with
                       attempts := k.attempts + 1,
                       state := if j.max_retries ≤ j.attempts + 1
                                then JState.dead else JState.failed,
                       updated_at := now }) s))
    ∨ (∃ st, ns ≠ "failed" ∧ parseState ns = some st
      ∧ update_job_state now jobId ns s
          = .ok (some ns,
                 updateById jobId
                   (fun k => { k with state := st, updated_at := now }) s))
    ∨ (ns ≠ "failed" ∧ parseState ns = none
      ∧ (update_job_state now jobId ns s = .error "CHECK constraint failed: state"
         ∨ update_job_state now jobId ns s = .ok (some ns, s))) := by
  have hf1 : ∀ k : Job,
      (({ k with attempts := k.attempts + 1, updated_at := now } : Job)).id = k.id :=
    fun k => rfl
  by_cases hns : ns = "failed"
  · subst hns
    cases hj0 : findById s jobId with
    | none =>
        left
        refine ⟨rfl, rfl, ?_⟩
        unfold update_job_state
        rw [if_pos rfl]
        have h1 : findById
            (updateById jobId
              (fun k => { k with attempts := k.attempts + 1, updated_at := now }) s)
            jobId = none := by
          rw [updateById_findById _ _ _ hf1, hj0]
          rfl
        simp only [h1]
    | some j =>
        right; left
        have hjid : j.id = jobId := (findById_mem s jobId j hj0).2
        refine ⟨j, rfl, rfl, ?_⟩
        unfold update_job_state
        rw [if_pos rfl]
        have h1 : findById
            (updateById jobId
              (fun k => { k with attempts := k.attempts + 1, updated_at := now }) s)
            jobId = some { j with attempts := j.attempts + 1, updated_at := now } := by
          rw [updateById_findById _ _ _ hf1, hj0]
          simp [hjid]
        simp only [h1]
        by_cases hc : j.max_retries ≤ j.attempts + 1
        · simp only [if_pos hc]
          rw [updateById_comp _ _ _ hf1]
        · simp only [if_neg hc]
          rw [updateById_comp _ _ _ hf1]
  · cases hp : parseState ns with
    | some st =>
        right; right; left
        refine ⟨st, hns, rfl, ?_⟩
        unfold update_job_state
        rw [if_neg hns]
        simp only [hp]
    | none =>
        right; right; right
        refine ⟨hns, rfl, ?_⟩
        unfold update_job_state
        rw [if_neg hns]
        simp only [hp]
        by_cases hany : s.any (fun k => (k.id = jobId : Bool)) = true
        · left; simp only [hany, if_true]
        · right; simp [hany]

theorem attemptsOf_updateById (jobId : String) (f : Job → Job)
    (hf : ∀ k, (f k).id = k.id) (s : Store) (id : String) :
    attemptsOf (updateById jobId f s) id
      = (findById s id).map
          (fun j => if j.id = jobId then (f j).attempts else j.attempts) := by
  unfold attemptsOf
  rw [updateById_findById _ _ _ hf]
  cases findById s id with
  | none => rfl
  | some j => by_cases hj : j.id = jobId <;> simp [hj]

/-- C8: a job's `attempts` never decreases except via `retry_job_from_dlq`:
`update_job_state(id, "failed")` increases it by exactly one, every other
store operation leaves it unchanged, and only `retry_job_from_dlq` — and only
on a job in `dead` state — resets it to 0. -/
theorem attempts_evolution (now : Nat) (op : StoreOp) (s : Store)
    (id : String) (a a' : Nat)
    (ha : attemptsOf s id = some a)
    (ha' : attemptsOf (stepOp now op s) id = some a') :
    (op = StoreOp.update id "failed" → a' = a + 1)
    ∧ ((op ≠ StoreOp.update id "failed" ∧ op ≠ StoreOp.retryDLQ id) → a' = a)
    ∧ (op = StoreOp.retryDLQ id →
        (stateOf s id = some JState.dead → a' = 0)
        ∧ (stateOf s id ≠ some JState.dead → a' = a))
    ∧ (op ≠ StoreOp.retryDLQ id → a ≤ a') := by
  unfold attemptsOf at ha
  cases hj : findById s id with
  | none => rw [hj] at ha; cases ha
  | some j =>
  rw [hj] at ha
  have haj : j.attempts = a := Option.some_inj.mp ha
  have hjid : j.id = id := (findById_mem s id j hj).2
  cases op with
  | enqueue fs suffix req =>
      have hstep : attemptsOf (stepOp now (.enqueue fs suffix req) s) id = some a := by
        unfold stepOp
        cases he : enqueue_job fs suffix now req s with
        | error e =>
            simp only [he]
            unfold attemptsOf
            rw [hj]
            exact ha
        | ok r =>
            obtain ⟨cmd, hcmd⟩ :=
              enqueue_ok_shape fs suffix now req s r.1 r.2 (by rw [he])
            simp only [he]
            rw [hcmd]
            unfold attemptsOf
            rw [findById_append, hj]
            exact ha
      rw [hstep] at ha'
      have haa : a' = a := (Option.some_inj.mp ha').symm
      exact ⟨fun h => StoreOp.noConfusion h, fun _ => haa,
             fun h => StoreOp.noConfusion h, fun _ => Nat.le_of_eq haa.symm⟩
  | claim =>
      have hfp : ∀ k : Job,
          (({ k with state := JState.processing, updated_at := now } : Job)).id
            = k.id := fun k => rfl
      have hstep : attemptsOf (stepOp now .claim s) id = some a := by
        unfold stepOp claim_job
        cases hb : (s.filter (fun j2 => (j2.state = JState.pending : Bool))).argmin
            Job.created_at with
        | none =>
            simp only [hb]
            unfold attemptsOf
            rw [hj]
            exact ha
        | some b =>
            simp only [hb]
            rw [attemptsOf_updateById _ _ hfp, hj]
            by_cases hbi : j.id = b.id <;> simp [hbi, haj]
      rw [hstep] at ha'
      have haa : a' = a := (Option.some_inj.mp ha').symm
      exact ⟨fun h => StoreOp.noConfusion h, fun _ => haa,
             fun h => StoreOp.noConfusion h, fun _ => Nat.le_of_eq haa.symm⟩
  | update jobId ns =>
      rcases update_job_state_cases now jobId ns s with
        ⟨hnsf, hnone, heq⟩ | ⟨j2, hnsf, hsome, heq⟩ | ⟨st, hnsf, hp, heq⟩ |
        ⟨hnsf, hp, herr⟩
      · -- "failed" on an absent id: store unchanged
        have hji : ¬ jobId = id := by
          intro h
          rw [h, hj] at hnone
          cases hnone
        have hstep : attemptsOf (stepOp now (.update jobId ns) s) id = some a := by
          unfold stepOp
          simp only [heq]
          unfold attemptsOf
          rw [hj]
          exact ha
        rw [hstep] at ha'
        have haa : a' = a := (Option.some_inj.mp ha').symm
        refine ⟨?_, fun _ => haa, fun h => StoreOp.noConfusion h,
                fun _ => Nat.le_of_eq haa.symm⟩
        intro h
        injection h with h1 h2
        exact absurd h1 hji
      · -- "failed" on a present id
        subst hnsf
        have hfBig : ∀ k : Job,
            (({ k with
                attempts := k.attempts + 1,
                state := if j2.max_retries ≤ j2.attempts + 1
                         then JState.dead else JState.failed,
                updated_at := now } : Job)).id = k.id := fun k => rfl
        by_cases hji : jobId = id
        · subst hji
          have hjj : j2 = j := by
            rw [hj] at hsome
            exact (Option.some_inj.mp hsome).symm
          subst hjj
          have hstep : attemptsOf (stepOp now (.update jobId "failed") s) jobId
              = some (a + 1) := by
            unfold stepOp
            simp only [heq]
            rw [attemptsOf_updateById _ _ hfBig, hj]
            simp [hjid, haj]
          rw [hstep] at ha'
          have haa : a' = a + 1 := (Option.some_inj.mp ha').symm
          refine ⟨fun _ => haa, ?_, fun h => StoreOp.noConfusion h,
                  fun _ => haa ▸ Nat.le_succ a⟩
          rintro ⟨hne, _⟩
          exact absurd rfl hne
        · have hstep : attemptsOf (stepOp now (.update jobId "failed") s) id
              = some a := by
            unfold stepOp
            simp only [heq]
            rw [attemptsOf_updateById _ _ hfBig, hj]
            have hne : ¬ j.id = jobId := by
              rw [hjid]
              exact fun h => hji h.symm
            simp [hne, haj]
          rw [hstep] at ha'
          have haa : a' = a := (Option.some_inj.mp ha').symm
          refine ⟨?_, fun _ => haa, fun h => StoreOp.noConfusion h,
                  fun _ => Nat.le_of_eq haa.symm⟩
          intro h
          injection h with h1 h2
          exact absurd h1 hji
      · -- a valid non-"failed" target state: attempts untouched
        have hfSt : ∀ k : Job,
            (({ k with state := st, updated_at := now } : Job)).id = k.id :=
          fun k => rfl
        have hstep : attemptsOf (stepOp now (.update jobId ns) s) id = some a := by
          unfold stepOp
          simp only [heq]
          rw [attemptsOf_updateById _ _ hfSt, hj]
          by_cases hbi : j.id = jobId <;> simp [hbi, haj]
        rw [hstep] at ha'
        have haa : a' = a := (Option.some_inj.mp ha').symm
        refine ⟨?_, fun _ => haa, fun h => StoreOp.noConfusion h,
                fun _ => Nat.le_of_eq haa.symm⟩
        intro h
        injection h with h1 h2
        exact absurd h2 hnsf
      · -- an invalid target state: exception or no-op, store unchanged
        have hstep : attemptsOf (stepOp now (.update jobId ns) s) id = some a := by
          unfold stepOp
          rcases herr with he | he <;> simp only [he] <;>
            (unfold attemptsOf; rw [hj]; exact ha)
        rw [hstep] at ha'
        have haa : a' = a := (Option.some_inj.mp ha').symm
        refine ⟨?_, fun _ => haa, fun h => StoreOp.noConfusion h,
                fun _ => Nat.le_of_eq haa.symm⟩
        intro h
        injection h with h1 h2
        exact absurd h2 hnsf
  | retryDLQ jobId =>
      have hfR : ∀ k : Job,
          ((if k.state = JState.dead
            then { k with state := JState.pending, attempts := 0, updated_at := now }
            else k : Job)).id = k.id := by
        intro k
        by_cases hk : k.state = JState.dead <;> simp [hk]
      by_cases hji : jobId = id
      · subst hji
        have hstate : stateOf s jobId = some j.state := by
          unfold stateOf
          rw [hj]
          rfl
        refine ⟨fun h => StoreOp.noConfusion h, ?_, ?_, ?_⟩
        · rintro ⟨_, hne⟩
          exact absurd rfl hne
        · intro _
          constructor
          · intro hdead
            rw [hstate] at hdead
            have hjd : j.state = JState.dead := Option.some_inj.mp hdead
            have hstep : attemptsOf (stepOp now (.retryDLQ jobId) s) jobId
                = some 0 := by
              unfold stepOp retry_job_from_dlq
              rw [attemptsOf_updateById _ _ hfR, hj]
              simp [hjid, hjd]
            rw [hstep] at ha'
            exact (Option.some_inj.mp ha').symm
          · intro hnd
            rw [hstate] at hnd
            have hjd : ¬ j.state = JState.dead := fun h => hnd (by rw [h])
            have hstep : attemptsOf (stepOp now (.retryDLQ jobId) s) jobId
                = some a := by
              unfold stepOp retry_job_from_dlq
              rw [attemptsOf_updateById _ _ hfR, hj]
              simp [hjid, hjd, haj]
            rw [hstep] at ha'
            exact (Option.some_inj.mp ha').symm
        · intro hne
          exact absurd rfl hne
      · have hstep : attemptsOf (stepOp now (.retryDLQ jobId) s) id = some a := by
          unfold stepOp retry_job_from_dlq
          rw [attemptsOf_updateById _ _ hfR, hj]
          have : ¬ j.id = jobId := by rw [hjid]; exact fun h => hji h.symm
          simp [this, haj]
        rw [hstep] at ha'
        have haa : a' = a := (Option.some_inj.mp ha').symm
        refine ⟨fun h => StoreOp.noConfusion h, fun _ => haa, ?_,
                fun _ => Nat.le_of_eq haa.symm⟩
        intro h
        injection h with h1
        exact absurd h1 hji
  | deleteJob jobId =>
      by_cases hji : jobId = id
      · subst hji
        have hgone : findById (delete_job jobId s) jobId = none := by
          unfold delete_job findById
          rw [List.find?_eq_none]
          intro x hx
          have := (List.mem_filter.mp hx).2
          simp only [Bool.not_eq_true', decide_eq_false_iff_not] at this
          simp [this]
        have : False := by
          unfold stepOp attemptsOf at ha'
          rw [hgone] at ha'
          cases ha'
        exact this.elim
      · have himp : ∀ x : Job, x.id = id → (!(x.id = jobId : Bool)) = true := by
          intro x hx
          simp only [Bool.not_eq_true', decide_eq_false_iff_not]
          intro h
          exact hji (by rw [← h]; exact hx)
        have hstep : attemptsOf (stepOp now (.deleteJob jobId) s) id = some a := by
          unfold stepOp delete_job attemptsOf
          rw [findById_filter_of_imp _ _ _ himp, hj]
          exact ha
        rw [hstep] at ha'
        have haa : a' = a := (Option.some_inj.mp ha').symm
        exact ⟨fun h => StoreOp.noConfusion h, fun _ => haa,
               fun h => StoreOp.noConfusion h, fun _ => Nat.le_of_eq haa.symm⟩
  | clearAll =>
      have : False := by
        unfold stepOp clear_all_jobs attemptsOf findById at ha'
        cases ha'
      exact this.elim

/-! ### Lemmas about the summary dictionary -/

theorem lookupKey_append (k : String) (d e : List (String × Nat)) :
    lookupKey k (d ++ e) = (lookupKey k d).or (lookupKey k e) := by
  induction d with
  | nil => rfl
  | cons p t ih => by_cases hp : p.1 = k <;> simp [lookupKey, hp, ih]

theorem any_key_iff (k : String) (d : List (String × Nat)) :
    d.any (fun p => (p.1 = k : Bool)) = true ↔ (lookupKey k d).isSome = true := by
  induction d with
  | nil => simp [lookupKey]
  | cons p t ih => by_cases hp : p.1 = k <;> simp [lookupKey, hp, ih]

theorem lookupKey_setdefault_self (d : List (String × Nat)) (k : String) :
    lookupKey k (setdefault d k) = (lookupKey k d).or (some 0) := by
  unfold setdefault
  by_cases h : d.any (fun p => (p.1 = k : Bool)) = true
  · rw [if_pos h]
    have hs := (any_key_iff k d).mp h
    cases hl : lookupKey k d with
    | none => rw [hl] at hs; cases hs
    | some v => simp [hl]
  · rw [if_neg h, lookupKey_append]
    have hs : ¬ (lookupKey k d).isSome = true :=
      fun hs => h ((any_key_iff k d).mpr hs)
    cases hl : lookupKey k d with
    | some v => rw [hl] at hs; simp at hs
    | none => simp [lookupKey]

theorem lookupKey_setdefault_other (d : List (String × Nat)) (k k2 : String)
    (h : ¬ k2 = k) : lookupKey k (setdefault d k2) = lookupKey k d := by
  unfold setdefault
  by_cases ha : d.any (fun p => (p.1 = k2 : Bool)) = true
  · rw [if_pos ha]
  · rw [if_neg ha, lookupKey_append]
    have h1 : lookupKey k [(k2, 0)] = none := by simp [lookupKey, h]
    rw [h1]
    cases lookupKey k d <;> rfl

theorem lookupKey_foldl_not_mem (names : List String) (d : List (String × Nat))
    (k : String) (h : k ∉ names) :
    lookupKey k (names.foldl setdefault d) = lookupKey k d := by
  induction names generalizing d with
  | nil => rfl
  | cons n t ih =>
      have hn : ¬ n = k := fun e => h (e ▸ List.mem_cons_self n t)
      rw [List.foldl_cons, ih _ (fun hm => h (List.mem_cons_of_mem n hm)),
          lookupKey_setdefault_other d k n hn]

theorem lookupKey_foldl_mem (names : List String) (d : List (String × Nat))
    (k : String) (h : k ∈ names) :
    lookupKey k (names.foldl setdefault d) = (lookupKey k d).or (some 0) := by
  induction names generalizing d with
  | nil => cases h
  | cons n t ih =>
      rw [List.foldl_cons]
      by_cases hk : k ∈ t
      · rw [ih _ hk]
        by_cases hn : n = k
        · subst hn
          rw [lookupKey_setdefault_self]
          cases lookupKey n d <;> rfl
        · rw [lookupKey_setdefault_other d k n hn]
      · have hn : n = k := by
          rcases List.mem_cons.mp h with he | ht
          · exact he.symm
          · exact absurd ht hk
        subst hn
        rw [lookupKey_foldl_not_mem t _ n hk, lookupKey_setdefault_self]

theorem stateName_injective : Function.Injective JState.name := by
  intro a b h
  cases a <;> cases b <;> revert h <;> decide

theorem lookupKey_groupCounts (l : List JState) (g : JState → Nat) (st : JState) :
    lookupKey st.name (l.map (fun t => (t.name, g t)))
      = if st ∈ l then some (g st) else none := by
  induction l with
  | nil => rfl
  | cons t ts ih =>
      by_cases ht : t.name = st.name
      · have hts : t = st := stateName_injective ht
        subst hts
        simp [lookupKey, List.mem_cons]
      · have hts : ¬ st = t := fun e => ht (congrArg JState.name e.symm)
        simp only [List.map_cons, lookupKey, ht, if_false, ih, List.mem_cons]
        by_cases hm : st ∈ ts <;> simp [hm, hts]

theorem count_zero_of_not_present (s : Store) (st : JState)
    (h : st ∉ statesPresent s) :
    (s.filter (fun j => (j.state = st : Bool))).length = 0 := by
  rw [List.length_eq_zero, List.filter_eq_nil_iff]
  intro a ha
  simp only [decide_eq_true_eq]
  intro he
  apply h
  unfold statesPresent
  rw [List.mem_dedup]
  exact he ▸ List.mem_map_of_mem Job.state ha

theorem keys_setdefault (d : List (String × Nat)) (k : String) :
    (setdefault d k).map Prod.fst = d.map Prod.fst
    ∨ (setdefault d k).map Prod.fst = d.map Prod.fst ++ [k] := by
  unfold setdefault
  by_cases h : d.any (fun p => (p.1 = k : Bool)) = true
  · left; rw [if_pos h]
  · right; rw [if_neg h]; simp

theorem mem_keys_setdefault_self (d : List (String × Nat)) (k : String) :
    k ∈ (setdefault d k).map Prod.fst := by
  unfold setdefault
  by_cases h : d.any (fun p => (p.1 = k : Bool)) = true
  · rw [if_pos h]
    obtain ⟨p, hp, hpk⟩ := List.any_eq_true.mp h
    simp only [decide_eq_true_eq] at hpk
    exact hpk ▸ List.mem_map_of_mem Prod.fst hp
  · rw [if_neg h]; simp

theorem mem_keys_foldl (names : List String) (d : List (String × Nat))
    (k : String) :
    k ∈ (names.foldl setdefault d).map Prod.fst
      ↔ (k ∈ d.map Prod.fst ∨ k ∈ names) := by
  induction names generalizing d with
  | nil => simp
  | cons n t ih =>
      rw [List.foldl_cons, ih]
      constructor
      · rintro (hd | ht)
        · rcases keys_setdefault d n with he | he
          · rw [he] at hd
            exact Or.inl hd
          · rw [he] at hd
            rcases List.mem_append.mp hd with h1 | h1
            · exact Or.inl h1
            · right
              rw [List.mem_singleton.mp h1]
              exact List.mem_cons_self n t
        · exact Or.inr (List.mem_cons_of_mem n ht)
      · rintro (hd | ht)
        · left
          rcases keys_setdefault d n with he | he
          · rw [he]; exact hd
          · rw [he]; exact List.mem_append_left _ hd
        · rcases List.mem_cons.mp ht with he | ht2
          · subst he
            exact Or.inl (mem_keys_setdefault_self d k)
          · exact Or.inr ht2

theorem keys_nodup_setdefault (d : List (String × Nat)) (k : String)
    (h : (d.map Prod.fst).Nodup) : ((setdefault d k).map Prod.fst).Nodup := by
  unfold setdefault
  by_cases ha : d.any (fun p => (p.1 = k : Bool)) = true
  · rw [if_pos ha]; exact h
  · rw [if_neg ha]
    simp only [List.map_append]
    rw [List.nodup_append]
    refine ⟨h, List.nodup_singleton k, ?_⟩
    intro x hx hxk
    rw [List.mem_singleton.mp hxk] at hx
    obtain ⟨p, hp, hpk⟩ := List.mem_map.mp hx
    have := List.any_eq_false.mp (Bool.eq_false_iff.mpr ha) p hp
    simp only [decide_eq_true_eq] at this
    exact this hpk

theorem keys_nodup_foldl (names : List String) (d : List (String × Nat))
    (h : (d.map Prod.fst).Nodup) :
    ((names.foldl setdefault d).map Prod.fst).Nodup := by
  induction names generalizing d with
  | nil => exact h
  | cons n t ih => exact ih _ (keys_nodup_setdefault d n h)

/-- C9: on every store, `get_job_summary` returns a mapping whose key set is
exactly the five state names — pending, processing, completed, failed, dead,
each appearing once — and each key maps to the number of jobs currently in
that state (0 when there are none; counts are `Nat`, hence non-negative). -/
theorem summary_spec (s : Store) :
    (∀ k, k ∈ (get_job_summary s).map Prod.fst ↔ k ∈ allStates.map JState.name)
    ∧ ((get_job_summary s).map Prod.fst).Nodup
    ∧ ∀ st : JState, lookupKey st.name (get_job_summary s)
        = some ((s.filter (fun j => (j.state = st : Bool))).length) := by
  have hall : ∀ st : JState, st ∈ allStates := by
    intro st
    cases st <;> decide
  have hgk : (((statesPresent s).map
      (fun st => (st.name, (s.filter (fun j => (j.state = st : Bool))).length))).map
      Prod.fst) = (statesPresent s).map JState.name := by
    rw [List.map_map]
    rfl
  refine ⟨?_, ?_, ?_⟩
  · intro k
    unfold get_job_summary
    rw [mem_keys_foldl]
    constructor
    · rintro (hg | hn)
      · rw [hgk] at hg
        obtain ⟨st, _, he⟩ := List.mem_map.mp hg
        exact he ▸ List.mem_map_of_mem JState.name (hall st)
      · exact hn
    · exact fun h => Or.inr h
  · unfold get_job_summary
    apply keys_nodup_foldl
    rw [hgk]
    exact (List.nodup_dedup _).map stateName_injective
  · intro st
    unfold get_job_summary
    rw [lookupKey_foldl_mem _ _ _ (List.mem_map_of_mem JState.name (hall st))]
    rw [lookupKey_groupCounts (statesPresent s)
        (fun t => (s.filter (fun j => (j.state = t : Bool))).length) st]
    by_cases hp : st ∈ statesPresent s
    · rw [if_pos hp]
      rfl
    · rw [if_neg hp, count_zero_of_not_present s st hp]
      rfl

theorem stateOf_updateById (jobId : String) (f : Job → Job)
    (hf : ∀ k, (f k).id = k.id) (s : Store) (id : String) :
    stateOf (updateById jobId f s) id
      = (findById s id).map
          (fun j => if j.id = jobId then (f j).state else j.state) := by
  unfold stateOf
  rw [updateById_findById _ _ _ hf]
  cases findById s id with
  | none => rfl
  | some j => by_cases hj : j.id = jobId <;> simp [hj]

/-- A worker-style run that drives one job to its third failure: enqueue,
then three claim/fail rounds with `pending` re-queues in between.  After the
final `claim` the job is `processing` with `attempts = 2`. -/
def c3Trace : List (Nat × StoreOp) :=
  [(0, .enqueue [] "x" { id := "j", command := "c", file_path := none }),
   (1, .claim), (2, .update "j" "failed"), (3, .update "j" "pending"),
   (4, .claim), (5, .update "j" "failed"), (6, .update "j" "pending"),
   (7, .claim)]

/-- C3: counterexample.  In the trace above the third failure moves the job
from `processing` directly to `dead` inside `update_job_state` — a state
change along the edge `processing → dead`, which the spec's lattice does not
list — even though the failing call is exactly the one the worker loop makes
on a claimed job. -/
theorem transition_lattice_counterexample :
    stateOf (runTrace c3Trace) "j" = some JState.processing
    ∧ disciplined (runTrace c3Trace) (StoreOp.update "j" "failed")
    ∧ stateOf (stepOp 8 (StoreOp.update "j" "failed") (runTrace c3Trace)) "j"
        = some JState.dead
    ∧ (JState.processing, JState.dead) ∉ specEdges := by
  refine ⟨rfl, ?_, rfl, by decide⟩
  exact ⟨fun _ => rfl, fun h => absurd h (by decide),
         fun h => absurd h (by decide), Or.inr (Or.inl rfl)⟩

/-- C3 (amended): starting from any table satisfying the PRIMARY KEY invariant,
a store call made the way the program makes it — `update_job_state` only under
the worker loop's calling discipline — changes a job's state only along the
edges pending→processing, processing→completed, processing→failed,
processing→dead, failed→pending, dead→pending: the spec's lattice with
`failed→dead` replaced by `processing→dead` (the exhausted-retries failure
jumps straight from `processing` to `dead`), and restricted to disciplined
calls because `update_job_state` itself enforces no edge check. -/
theorem transition_edges_amended (now : Nat) (op : StoreOp) (s : Store)
    (hs : IdsNodup s) (hd : disciplined s op) :
    ∀ id st st', stateOf s id = some st →
      stateOf (stepOp now op s) id = some st' → st ≠ st' →
      (st, st') ∈ codeEdges := by
  intro id st st' h1 h2 hne
  unfold stateOf at h1
  cases hj : findById s id with
  | none => rw [hj] at h1; cases h1
  | some j =>
  rw [hj] at h1
  have hst : j.state = st := Option.some_inj.mp h1
  have hjid : j.id = id := (findById_mem s id j hj).2
  have hjmem : j ∈ s := (findById_mem s id j hj).1
  cases op with
  | enqueue fs suffix req =>
      exfalso
      apply hne
      unfold stepOp at h2
      cases he : enqueue_job fs suffix now req s with
      | error e =>
          simp only [he] at h2
          unfold stateOf at h2
          rw [hj] at h2
          exact Option.some_inj.mp (h1.symm.trans h2)
      | ok r =>
          obtain ⟨cmd, hcmd⟩ :=
            enqueue_ok_shape fs suffix now req s r.1 r.2 (by rw [he])
          simp only [he] at h2
          rw [hcmd] at h2
          unfold stateOf at h2
          rw [findById_append, hj] at h2
          exact Option.some_inj.mp (h1.symm.trans h2)
  | claim =>
      have hfp : ∀ k : Job,
          (({ k with state := JState.processing, updated_at := now } : Job)).id
            = k.id := fun k => rfl
      unfold stepOp claim_job at h2
      cases hb : (s.filter (fun j2 => (j2.state = JState.pending : Bool))).argmin
          Job.created_at with
      | none =>
          simp only [hb] at h2
          exfalso
          apply hne
          unfold stateOf at h2
          rw [hj] at h2
          exact Option.some_inj.mp (h1.symm.trans h2)
      | some b =>
          simp only [hb] at h2
          rw [stateOf_updateById _ _ hfp, hj] at h2
          simp only [Option.map_some'] at h2
          have hbmem := List.argmin_mem (Option.mem_def.mpr hb)
          have hbs : b ∈ s := (List.mem_filter.mp hbmem).1
          have hbpend : b.state = JState.pending := by
            simpa using (List.mem_filter.mp hbmem).2
          by_cases hjb : j.id = b.id
          · have hjb2 : j = b := id_inj s hs hjmem hbs hjb
            rw [if_pos hjb] at h2
            have hst2 : st' = JState.processing := (Option.some_inj.mp h2).symm
            rw [← hst, hjb2, hbpend, hst2]
            decide
          · rw [if_neg hjb] at h2
            exact absurd (hst ▸ Option.some_inj.mp h2) hne
  | update jobId ns =>
      obtain ⟨hg1, hg2, hg3, hg4⟩ := hd
      rcases update_job_state_cases now jobId ns s with
        ⟨hnsf, hnone, heq⟩ | ⟨j2, hnsf, hsome, heq⟩ | ⟨st0, hnsf, hp, heq⟩ |
        ⟨hnsf, hp, herr⟩
      · exfalso
        apply hne
        unfold stepOp at h2
        simp only [heq] at h2
        unfold stateOf at h2
        rw [hj] at h2
        exact Option.some_inj.mp (h1.symm.trans h2)
      · subst hnsf
        have hproc : stateOf s jobId = some JState.processing := hg1 (Or.inr rfl)
        have hj2state : j2.state = JState.processing := by
          unfold stateOf at hproc
          rw [hsome] at hproc
          exact Option.some_inj.mp hproc
        have hfBig : ∀ k : Job,
            (({ k with
                attempts := k.attempts + 1,
                state := if j2.max_retries ≤ j2.attempts + 1
                         then JState.dead else JState.failed,
                updated_at := now } : Job)).id = k.id := fun k => rfl
        unfold stepOp at h2
        simp only [heq] at h2
        rw [stateOf_updateById _ _ hfBig, hj] at h2
        simp only [Option.map_some'] at h2
        by_cases hjb : j.id = jobId
        · rw [if_pos hjb] at h2
          have hidj : id = jobId := by rw [← hjid]; exact hjb
          have hjj2 : j = j2 := by
            rw [← hidj, hj] at hsome
            exact Option.some_inj.mp hsome
          have hstp : st = JState.processing := by
            rw [← hst, hjj2, hj2state]
          have hbs : (if j2.max_retries ≤ j2.attempts + 1
              then JState.dead else JState.failed) = st' :=
            Option.some_inj.mp h2
          by_cases hcc : j2.max_retries ≤ j2.attempts + 1
          · rw [if_pos hcc] at hbs
            rw [hstp, ← hbs]
            decide
          · rw [if_neg hcc] at hbs
            rw [hstp, ← hbs]
            decide
        · rw [if_neg hjb] at h2
          exact absurd (hst ▸ Option.some_inj.mp h2) hne
      · have hfSt : ∀ k : Job,
            (({ k with state := st0, updated_at := now } : Job)).id = k.id :=
          fun k => rfl
        unfold stepOp at h2
        simp only [heq] at h2
        rw [stateOf_updateById _ _ hfSt, hj] at h2
        simp only [Option.map_some'] at h2
        by_cases hjb : j.id = jobId
        · rw [if_pos hjb] at h2
          have hst2 : st0 = st' := Option.some_inj.mp h2
          have hidj : id = jobId := by rw [← hjid]; exact hjb
          rcases hg4 with hc | hc | hc | hc
          · subst hc
            have h5 : parseState "completed" = some JState.completed := by decide
            have hst0 : st0 = JState.completed :=
              (Option.some_inj.mp (h5.symm.trans hp)).symm
            have hproc : stateOf s jobId = some JState.processing :=
              hg1 (Or.inl rfl)
            have hstpr : st = JState.processing := by
              unfold stateOf at hproc
              rw [← hidj, hj] at hproc
              rw [← hst]
              exact Option.some_inj.mp hproc
            rw [hstpr, ← hst2, hst0]
            decide
          · exact absurd hc hnsf
          · subst hc
            have h5 : parseState "pending" = some JState.pending := by decide
            have hst0 : st0 = JState.pending :=
              (Option.some_inj.mp (h5.symm.trans hp)).symm
            have hfail : stateOf s jobId = some JState.failed := hg2 rfl
            have hstf : st = JState.failed := by
              unfold stateOf at hfail
              rw [← hidj, hj] at hfail
              rw [← hst]
              exact Option.some_inj.mp hfail
            rw [hstf, ← hst2, hst0]
            decide
          · subst hc
            have h5 : parseState "dead" = some JState.dead := by decide
            have hst0 : st0 = JState.dead :=
              (Option.some_inj.mp (h5.symm.trans hp)).symm
            have hdd : stateOf s jobId = some JState.dead := hg3 rfl
            have hstd : st = JState.dead := by
              unfold stateOf at hdd
              rw [← hidj, hj] at hdd
              rw [← hst]
              exact Option.some_inj.mp hdd
            exact absurd (by rw [hstd, ← hst2, hst0]) hne
        · rw [if_neg hjb] at h2
          exact absurd (hst ▸ Option.some_inj.mp h2) hne
      · exfalso
        rcases hg4 with hc | hc | hc | hc <;> subst hc <;>
          exact absurd hp (by decide)
  | retryDLQ jobId =>
      have hfR : ∀ k : Job,
          ((if k.state = JState.dead
            then { k with state := JState.pending, attempts := 0, updated_at := now }
            else k : Job)).id = k.id := by
        intro k
        by_cases hk : k.state = JState.dead <;> simp [hk]
      unfold stepOp retry_job_from_dlq at h2
      rw [stateOf_updateById _ _ hfR, hj] at h2
      simp only [Option.map_some'] at h2
      by_cases hjb : j.id = jobId
      · rw [if_pos hjb] at h2
        by_cases hjd : j.state = JState.dead
        · rw [if_pos hjd] at h2
          have hst2 : st' = JState.pending := (Option.some_inj.mp h2).symm
          rw [← hst, hjd, hst2]
          decide
        · rw [if_neg hjd] at h2
          exact absurd (hst ▸ Option.some_inj.mp h2) hne
      · rw [if_neg hjb] at h2
        exact absurd (hst ▸ Option.some_inj.mp h2) hne
  | deleteJob jobId =>
      by_cases hjb : jobId = id
      · exfalso
        subst hjb
        have hgone : findById (delete_job jobId s) jobId = none := by
          unfold delete_job findById
          rw [List.find?_eq_none]
          intro x hx
          have hx2 := (List.mem_filter.mp hx).2
          simp only [Bool.not_eq_true', decide_eq_false_iff_not] at hx2
          simp [hx2]
        unfold stepOp stateOf at h2
        rw [hgone] at h2
        cases h2
      · exfalso
        apply hne
        have himp : ∀ x : Job, x.id = id → (!(x.id = jobId : Bool)) = true := by
          intro x hx
          simp only [Bool.not_eq_true', decide_eq_false_iff_not]
          intro h
          exact hjb (by rw [← h]; exact hx)
        unfold stepOp delete_job stateOf at h2
        rw [findById_filter_of_imp _ _ _ himp, hj] at h2
        exact Option.some_inj.mp (h1.symm.trans h2)
  | clearAll =>
      exfalso
      unfold stepOp clear_all_jobs stateOf findById at h2
      cases h2

def witJobC3 : Job :=
  { id := "w", command := "c", state := .pending, attempts := 0,
    max_retries := 3, created_at := 0, updated_at := 0 }

theorem transition_edges_amended_witness :
    (JState.pending, JState.processing) ∈ codeEdges :=
  transition_edges_amended 10 StoreOp.claim [witJobC3] (by decide) trivial
    "w" JState.pending JState.processing rfl rfl (by decide)

def witJobC8 : Job :=
  { id := "a", command := "c", state := .processing, attempts := 1,
    max_retries := 3, created_at := 0, updated_at := 0 }

theorem attempts_evolution_witness :
    (StoreOp.update "a" "failed" = StoreOp.update "a" "failed" → (2 : Nat) = 1 + 1)
    ∧ ((StoreOp.update "a" "failed" ≠ StoreOp.update "a" "failed"
        ∧ StoreOp.update "a" "failed" ≠ StoreOp.retryDLQ "a") → (2 : Nat) = 1)
    ∧ (StoreOp.update "a" "failed" = StoreOp.retryDLQ "a" →
        (stateOf [witJobC8] "a" = some JState.dead → (2 : Nat) = 0)
        ∧ (stateOf [witJobC8] "a" ≠ some JState.dead → (2 : Nat) = 1))
    ∧ (StoreOp.update "a" "failed" ≠ StoreOp.retryDLQ "a" → 1 ≤ 2) :=
  attempts_evolution 5 (StoreOp.update "a" "failed") [witJobC8] "a" 1 2 rfl rfl
